import Mathlib

/-!
Verification of the calorie-counter application's core logic.

The development shallowly embeds the TypeScript sources:
JavaScript numbers that hold exact decimal quantities are modelled as `ℚ`,
optional (`undefined`-able) values as `Option`, thrown exceptions as
`Except` results, and the two HTTP clients are parametrised by an
oracle for `fetch` so that the number of network calls can be counted.
-/

namespace CalorieCounter

/-- Rational addition spelled with `Rat.divInt` so that the kernel can
evaluate it on concrete inputs (the library's `Rat.add` is irreducible);
`qAdd_eq` shows it is ordinary addition. -/
def qAdd (a b : ℚ) : ℚ := Rat.divInt (a.num * b.den + b.num * a.den) (a.den * b.den)

/-- Kernel-evaluable rational subtraction; `qSub_eq` shows it is ordinary
subtraction. -/
def qSub (a b : ℚ) : ℚ := Rat.divInt (a.num * b.den - b.num * a.den) (a.den * b.den)

/-- Kernel-evaluable rational division; `qDiv_eq` shows it is ordinary
division. -/
def qDiv (a b : ℚ) : ℚ := Rat.divInt (a.num * b.den) (a.den * b.num)

theorem qAdd_eq (a b : ℚ) : qAdd a b = a + b := by
  rw [qAdd, Rat.divInt_eq_div]
  push_cast
  have ha : ((a.den : ℚ)) ≠ 0 := by exact_mod_cast a.den_ne_zero
  have hb : ((b.den : ℚ)) ≠ 0 := by exact_mod_cast b.den_ne_zero
  have h1 : (a.num : ℚ) = a * a.den := (div_eq_iff ha).mp (Rat.num_div_den a)
  have h2 : (b.num : ℚ) = b * b.den := (div_eq_iff hb).mp (Rat.num_div_den b)
  rw [div_eq_iff (mul_ne_zero ha hb), h1, h2]
  ring

theorem qSub_eq (a b : ℚ) : qSub a b = a - b := by
  rw [qSub, Rat.divInt_eq_div]
  push_cast
  have ha : ((a.den : ℚ)) ≠ 0 := by exact_mod_cast a.den_ne_zero
  have hb : ((b.den : ℚ)) ≠ 0 := by exact_mod_cast b.den_ne_zero
  have h1 : (a.num : ℚ) = a * a.den := (div_eq_iff ha).mp (Rat.num_div_den a)
  have h2 : (b.num : ℚ) = b * b.den := (div_eq_iff hb).mp (Rat.num_div_den b)
  rw [div_eq_iff (mul_ne_zero ha hb), h1, h2]
  ring

theorem qDiv_eq (a b : ℚ) : qDiv a b = a / b := by
  by_cases hb0 : b = 0
  · subst hb0; simp [qDiv, Rat.divInt_eq_div]
  · rw [qDiv, Rat.divInt_eq_div]
    push_cast
    have ha : ((a.den : ℚ)) ≠ 0 := by exact_mod_cast a.den_ne_zero
    have hbd : ((b.den : ℚ)) ≠ 0 := by exact_mod_cast b.den_ne_zero
    have hbn : ((b.num : ℚ)) ≠ 0 := by exact_mod_cast Rat.num_ne_zero.mpr hb0
    have h1 : (a.num : ℚ) = a * a.den := (div_eq_iff ha).mp (Rat.num_div_den a)
    have h2 : (b.num : ℚ) = b * b.den := (div_eq_iff hbd).mp (Rat.num_div_den b)
    rw [div_eq_div_iff (mul_ne_zero ha hbn) hb0, h1, h2]
    ring

/-- Model of JavaScript `Math.round`: rounds half up, i.e. `⌊x + 1/2⌋`
(spelled with the kernel-evaluable addition). -/
def jsRound (q : ℚ) : ℤ := ⌊qAdd q (mkRat 1 2)⌋

theorem jsRound_eq (q : ℚ) : jsRound q = ⌊q + 1 / 2⌋ := by
  rw [jsRound, qAdd_eq]
  norm_num [Rat.mkRat_eq_div]

/-- Model of the JavaScript expression `s || d` for a possibly-`undefined`
string `s`: the default is taken when the value is missing or is the empty
string (both are falsy). -/
def jsOrS (o : Option String) (d : String) : String :=
  match o with
  | none => d
  | some s => if s = "" then d else s

/-- Model of the JavaScript expression `x || d` for a possibly-`undefined`
number `x`: the default is taken when the value is missing or equals `0`
(both are falsy). -/
def jsOrQ (o : Option ℚ) (d : ℚ) : ℚ :=
  match o with
  | none => d
  | some v => if v = 0 then d else v

/-- `FoodCalculator.calculateCalories` (src/services/EdamamService.ts):
`Math.round((caloriesPer100g * weightInGrams) / 100)`. -/
def calculateCalories (caloriesPer100g weightInGrams : ℚ) : ℤ :=
  jsRound (caloriesPer100g * weightInGrams / 100)

/-- Written from the spec's words, for comparison: round-half-away-from-zero
rounding of a rational. -/
def roundHalfAwayFromZero (q : ℚ) : ℤ :=
  if 0 ≤ q then ⌊q + 1 / 2⌋ else -⌊-q + 1 / 2⌋

/-- C1: for all non-negative integers `p` (calories per 100 g) and `w`
(weight in grams), `FoodCalculator.calculateCalories p w` equals
`round(p * w / 100)` with round-half-away-from-zero rounding; in particular
`calculateCalories 200 100 = 200` and `calculateCalories 89 150 = 134`. -/
theorem calculateCalories_round_spec :
    (∀ p w : ℕ, calculateCalories p w = roundHalfAwayFromZero ((p : ℚ) * w / 100))
      ∧ calculateCalories 200 100 = 200 ∧ calculateCalories 89 150 = 134 := by
  refine ⟨fun p w => ?_, by norm_num [calculateCalories, jsRound_eq],
    by norm_num [calculateCalories, jsRound_eq]⟩
  rw [calculateCalories, jsRound_eq, roundHalfAwayFromZero, if_pos (by positivity)]

/-! ## Persistence Gateway (src/services/StorageService.ts) -/

/-- `FoodLogEntry` (src/types): a logged food item. -/
structure FoodLogEntry where
  id : String
  name : String
  calories : ℤ
  date : String
deriving DecidableEq, Repr

/-- `RecipeIngredient` (src/types). -/
structure RecipeIngredient where
  name : String
  calories : ℤ
deriving DecidableEq, Repr

/-- `Recipe` (src/types). -/
structure Recipe where
  id : String
  name : String
  ingredients : List RecipeIngredient
deriving DecidableEq, Repr

/-- `AppSettings` (src/types). -/
structure AppSettings where
  dailyGoal : ℤ
deriving DecidableEq, Repr

/-- `StorageService.getFoodLog`: `AsyncStorage.getItem` is modelled by its
outcome `readItem` (a thrown read error, no stored value, or a stored
string), `JSON.parse` by the opaque `parse`.  The `try`/`catch` swallows
errors and the `data ? JSON.parse(data) : []` conditional treats a missing
(or empty-string, falsy) blob as the default `[]`. -/
def getFoodLog (readItem : Except String (Option String))
    (parse : String → Except String (List FoodLogEntry)) : List FoodLogEntry :=
  match readItem with
  | .error _ => []
  | .ok none => []
  | .ok (some data) =>
      if data = "" then []
      else
        match parse data with
        | .error _ => []
        | .ok v => v

/-- `StorageService.getRecipes`: same shape as `getFoodLog` with default `[]`. -/
def getRecipes (readItem : Except String (Option String))
    (parse : String → Except String (List Recipe)) : List Recipe :=
  match readItem with
  | .error _ => []
  | .ok none => []
  | .ok (some data) =>
      if data = "" then []
      else
        match parse data with
        | .error _ => []
        | .ok v => v

/-- `StorageService.getSettings`: same shape with default `{ dailyGoal: 2000 }`. -/
def getSettings (readItem : Except String (Option String))
    (parse : String → Except String AppSettings) : AppSettings :=
  match readItem with
  | .error _ => ⟨2000⟩
  | .ok none => ⟨2000⟩
  | .ok (some data) =>
      if data = "" then ⟨2000⟩
      else
        match parse data with
        | .error _ => ⟨2000⟩
        | .ok v => v

/-- The situations the spec's claim C7 describes: the store holds no value,
or the read itself or the subsequent parse raises an error. -/
def loadFails {α : Type} (readItem : Except String (Option String))
    (parse : String → Except String α) : Prop :=
  (∃ e, readItem = .error e) ∨ readItem = .ok none ∨
    ∃ s e, readItem = .ok (some s) ∧ parse s = .error e

/-- C7: every load operation of the Persistence Gateway returns the
documented default — `[]` for food log and recipes, `{dailyGoal := 2000}`
for settings — whenever the store holds no value or the read/parse raises,
and no error is propagated (the result type carries no error channel). -/
theorem storage_loads_default :
    ∀ readItem : Except String (Option String),
      (∀ parseL, loadFails readItem parseL → getFoodLog readItem parseL = []) ∧
      (∀ parseR, loadFails readItem parseR → getRecipes readItem parseR = []) ∧
      (∀ parseS, loadFails readItem parseS → getSettings readItem parseS = ⟨2000⟩) := by
  intro readItem
  refine ⟨fun p h => ?_, fun p h => ?_, fun p h => ?_⟩ <;>
    [skip; skip; skip] <;>
    (rcases h with ⟨e, he⟩ | he | ⟨s, e, hs, hp⟩ <;> subst_vars) <;>
      try rfl
  all_goals by_cases hse : s = "" <;>
    simp [getFoodLog, getRecipes, getSettings, hse, hp]

/-- Witness for C7 at concrete read/parse outcomes. -/
theorem storage_loads_default_witness :
    getFoodLog (.error "io failure") (fun _ => .ok []) = [] ∧
    getRecipes (.ok none) (fun _ => .ok []) = [] ∧
    getSettings (.ok (some "x")) (fun _ => .error "bad json") = ⟨2000⟩ :=
  ⟨(storage_loads_default _).1 _ (.inl ⟨"io failure", rfl⟩),
   (storage_loads_default _).2.1 _ (.inr (.inl rfl)),
   (storage_loads_default _).2.2 _ (.inr (.inr ⟨"x", "bad json", rfl, rfl⟩))⟩

/-- `StorageService.addRecipe`, as the transformation it applies to the
stored recipe collection on its success path: read the current list, find
`findIndex(r => r.id === recipe.id)`, overwrite in place when found,
append otherwise, write the list back. -/
def addRecipe (stored : List Recipe) (recipe : Recipe) : List Recipe :=
  match stored.findIdx? (fun r => r.id == recipe.id) with
  | some existingIndex => stored.set existingIndex recipe
  | none => stored ++ [recipe]

theorem addRecipe_cons (a : Recipe) (l : List Recipe) (r : Recipe) :
    addRecipe (a :: l) r =
      if a.id == r.id then r :: l else a :: addRecipe l r := by
  simp only [addRecipe, List.findIdx?_cons, List.findIdx?_succ]
  by_cases h : (a.id == r.id) = true
  · simp [h]
  · simp only [h, if_false, Bool.false_eq_true]
    cases hf : List.findIdx? (fun rr => rr.id == r.id) l <;> simp [hf, List.set]

theorem findIdx?_lt_length {α : Type} {p : α → Bool} :
    ∀ {l : List α} {j : ℕ}, l.findIdx? p = some j → j < l.length := by
  intro l
  induction l with
  | nil => intro j h; simp [List.findIdx?_nil] at h
  | cons a t ih =>
    intro j h
    rw [List.findIdx?_cons, List.findIdx?_succ] at h
    by_cases hp : p a = true
    · simp only [hp, if_true, Option.some.injEq] at h
      subst h
      simp
    · simp only [hp, Bool.false_eq_true, if_false, Option.map_eq_some'] at h
      rcases h with ⟨i, hi, rfl⟩
      have := ih hi
      simp only [List.length_cons]
      omega

/-- C10: `addRecipe` modifies only the upserted id's slot.  When the list
has an entry with the new recipe's id, the first such entry (index given by
`findIdx?`) is replaced in place, the length is unchanged and every other
position is untouched; when no entry matches, the recipe is appended at the
end and the existing entries are unchanged. -/
theorem addRecipe_frame (l : List Recipe) (r : Recipe) :
    (∀ j, l.findIdx? (fun x => x.id == r.id) = some j →
        (addRecipe l r).length = l.length ∧
        (addRecipe l r)[j]? = some r ∧
        ∀ k, k ≠ j → (addRecipe l r)[k]? = l[k]?) ∧
    (l.findIdx? (fun x => x.id == r.id) = none → addRecipe l r = l ++ [r]) := by
  constructor
  · intro j hj
    have hlen : j < l.length := findIdx?_lt_length hj
    have hdef : addRecipe l r = l.set j r := by
      simp [addRecipe, hj]
    refine ⟨by simp [hdef], by simp [hdef, List.getElem?_set, hlen], ?_⟩
    intro k hk
    simp [hdef, List.getElem?_set, (Ne.symm hk : j ≠ k)]
  · intro hn
    simp [addRecipe, hn]

/-- Witness for C10: a replacement inside `[a, b]` and an append to `[a]`. -/
theorem addRecipe_frame_witness :
    ((addRecipe [⟨"a", "A", []⟩, ⟨"b", "B", []⟩] ⟨"b", "B2", []⟩).length = 2 ∧
      (addRecipe [⟨"a", "A", []⟩, ⟨"b", "B", []⟩] ⟨"b", "B2", []⟩)[1]? =
        some ⟨"b", "B2", []⟩ ∧
      (addRecipe [⟨"a", "A", []⟩, ⟨"b", "B", []⟩] ⟨"b", "B2", []⟩)[0]? =
        [(⟨"a", "A", []⟩ : Recipe), ⟨"b", "B", []⟩][0]?) ∧
    addRecipe [⟨"a", "A", []⟩] ⟨"b", "B2", []⟩ =
      [⟨"a", "A", []⟩, ⟨"b", "B2", []⟩] := by
  refine ⟨⟨((addRecipe_frame [⟨"a", "A", []⟩, ⟨"b", "B", []⟩] ⟨"b", "B2", []⟩).1 1
      (by decide)).1, ((addRecipe_frame [⟨"a", "A", []⟩, ⟨"b", "B", []⟩]
      ⟨"b", "B2", []⟩).1 1 (by decide)).2.1,
      (((addRecipe_frame [⟨"a", "A", []⟩, ⟨"b", "B", []⟩] ⟨"b", "B2", []⟩).1 1
      (by decide)).2.2 0 (by decide))⟩,
    (addRecipe_frame [⟨"a", "A", []⟩] ⟨"b", "B2", []⟩).2 (by decide)⟩

/-- A recipe used in concrete upsert examples. -/
def rSoup : Recipe := ⟨"r1", "Soup", []⟩

/-- Counterexample to C9 as stated: when the stored list already holds two
entries with the same id (states the claim quantifies over, reachable via
`saveRecipes`), upserting that id twice still leaves two entries, not one. -/
theorem addRecipe_twice_counterexample :
    ((addRecipe (addRecipe [rSoup, rSoup] rSoup) rSoup).filter
        (fun x => x.id == rSoup.id)).length = 2 ∧
      ((addRecipe (addRecipe [rSoup, rSoup] rSoup) rSoup).filter
        (fun x => x.id == rSoup.id)).length ≠ 1 := by
  constructor <;> decide

/-- C9 (amended): if the stored list holds at most one entry with id `r.id`
— the invariant every reachable store satisfies — then applying
`addRecipe r` twice leaves exactly one entry with that id, equal to `r`. -/
theorem addRecipe_twice_unique (l : List Recipe) (r : Recipe)
    (h : l.countP (fun x => x.id == r.id) ≤ 1) :
    (addRecipe (addRecipe l r) r).filter (fun x => x.id == r.id) = [r] := by
  induction l with
  | nil =>
    simp [addRecipe, List.findIdx?_nil, List.findIdx?_cons]
  | cons a t ih =>
    rw [addRecipe_cons]
    by_cases hh : (a.id == r.id) = true
    · rw [if_pos hh]
      have ht : t.countP (fun x => x.id == r.id) = 0 := by
        simp only [List.countP_cons, hh, if_true] at h
        omega
      have htf : t.filter (fun x => x.id == r.id) = [] :=
        List.filter_eq_nil_iff.mpr (by
          intro x hx
          have := List.countP_eq_zero.mp ht x hx
          simpa using this)
      rw [addRecipe_cons, if_pos (by simp)]
      simp [List.filter_cons, htf]
    · rw [if_neg hh, addRecipe_cons, if_neg hh]
      have ht : t.countP (fun x => x.id == r.id) ≤ 1 := by
        simp only [List.countP_cons, hh, Bool.false_eq_true, if_false] at h
        omega
      simp only [List.filter_cons, hh, Bool.false_eq_true, if_false]
      exact ih ht

/-- Witness for the amended C9 on the empty store. -/
theorem addRecipe_twice_unique_witness :
    ([] : List Recipe).countP (fun x => x.id == rSoup.id) ≤ 1 ∧
    (addRecipe (addRecipe [] rSoup) rSoup).filter (fun x => x.id == rSoup.id) =
      [rSoup] :=
  ⟨by decide, addRecipe_twice_unique [] rSoup (by decide)⟩

/-! ## Nutrition Search Client (src/services/EdamamService.ts) -/

/-- A provider measure after normalization (`measures` entries of
`FoodSearchResult`). -/
structure Measure where
  uri : String
  label : String
  weight : Option ℚ
deriving DecidableEq, Repr

/-- `FoodSearchResult` (src/services/EdamamService.ts). -/
structure FoodSearchResult where
  label : String
  calories : ℚ
  id : String
  image : Option String
  measures : Option (List Measure)
deriving DecidableEq, Repr

/-- Primary collation key of a label: its characters case-folded. -/
def primKey (s : String) : List ℕ := s.toList.map (fun c => c.toLower.toNat)

/-- Tertiary collation key of a label: the case of each character with
lowercase ranked before uppercase. -/
def caseKey (s : String) : List ℕ := s.toList.map (fun c => if c.isLower then 0 else 1)

/-- Lexicographic comparison of key sequences. -/
def cmpNatList : List ℕ → List ℕ → Ordering
  | [], [] => .eq
  | [], _ :: _ => .lt
  | _ :: _, [] => .gt
  | a :: as, b :: bs =>
    if a < b then .lt
    else if b < a then .gt
    else cmpNatList as bs

/-- Model of `String.prototype.localeCompare` under the default root-locale
collation that mainstream JavaScript engines (ICU) apply: labels compare
case-insensitively at primary strength, and a case difference is a weaker
(tertiary) difference ordered lowercase-first.  Character-wise case folding
suffices for the ASCII labels involved. -/
def localeCmp (a b : String) : Ordering :=
  match cmpNatList (primKey a) (primKey b) with
  | .eq => cmpNatList (caseKey a) (caseKey b)
  | o => o

/-- The sort relation of `searchFoodDatabase`'s comparator
`(a, b) => a.label.localeCompare(b.label)`: "comparator result ≤ 0". -/
def foodLe (a b : FoodSearchResult) : Bool :=
  decide (localeCmp a.label b.label ≠ Ordering.gt)

/-- `NutrientsJson`: the `nutrients` object of a parsed food. -/
structure NutrientsJson where
  ENERC_KCAL : Option ℚ
deriving DecidableEq, Repr

/-- `FoodJson`: the `food` object of a parsed item. -/
structure FoodJson where
  foodId : Option String
  label : Option String
  image : Option String
  nutrients : Option NutrientsJson
deriving DecidableEq, Repr

/-- A raw `measures` entry of a parsed item. -/
structure MeasureJson where
  uri : Option String
  label : Option String
  weight : Option ℚ
deriving DecidableEq, Repr

/-- One entry of the provider's `parsed` array. -/
structure ParsedItemJson where
  food : Option FoodJson
  measures : Option (List MeasureJson)
deriving DecidableEq, Repr

/-- The provider response body: `{ parsed?: [...] }`. -/
structure EdamamData where
  parsed : Option (List ParsedItemJson)
deriving DecidableEq, Repr

/-- The filter `item.food && item.food.nutrients && item.food.nutrients.ENERC_KCAL > 0`
(`undefined > 0` is false in JavaScript). -/
def keepItem (item : ParsedItemJson) : Bool :=
  match item.food with
  | none => false
  | some f =>
      match f.nutrients with
      | none => false
      | some n =>
          match n.ENERC_KCAL with
          | none => false
          | some v => decide (0 < v)

/-- The `.map` body of `searchFoodDatabase`'s response parsing.  `rnd`
stands for the `Math.random().toString()` fresh id taken when `foodId`
is missing (no claim depends on its value). -/
def toSearchResult (rnd : String) (item : ParsedItemJson) : FoodSearchResult :=
  let food := item.food.getD ⟨none, none, none, none⟩
  let ms := item.measures.getD []
  { label := jsOrS food.label "Unknown Food"
    calories := (jsRound (jsOrQ (food.nutrients.bind (fun n => n.ENERC_KCAL)) 0) : ℚ)
    id := jsOrS food.foodId rnd
    image := food.image
    measures := some (ms.map (fun m => ⟨jsOrS m.uri "", jsOrS m.label "", m.weight⟩)) }

/-- The response-parsing tail of `searchFoodDatabase`: filter the `parsed`
items, normalize them, and `.sort((a, b) => a.label.localeCompare(b.label))`.
`Array.prototype.sort` is stable (ES2019), which the stable
`List.insertionSort` models. -/
def parseFoodDatabase (rnd : String) (data : EdamamData) : List FoodSearchResult :=
  match data.parsed with
  | some items =>
      List.insertionSort (fun a b => foodLe a b = true)
        ((items.filter keepItem).map (toSearchResult rnd))
  | none => []

/-- Outcome of one `fetch`: HTTP success flag, status, body text, and the
decoded JSON body. -/
structure FetchResult where
  ok : Bool
  status : ℕ
  bodyText : String
  json : EdamamData
deriving Repr

/-- The two `process.env` credentials read at module load. -/
structure EdamamEnv where
  appId : Option String
  appKey : Option String
deriving DecidableEq, Repr

/-- JavaScript truthiness test `!x` for a possibly-`undefined` string. -/
def jsFalsyS (o : Option String) : Bool :=
  match o with
  | none => true
  | some s => s = ""

/-- The request URL (percent-encoding by `URLSearchParams` is not spelled
out; no claim depends on the URL's text). -/
def buildParserUrl (appId appKey query : String)
    (nutritionType category : Option String) : String :=
  let base := s!"https://api.edamam.com/api/food-database/v2/parser?app_id={appId}&app_key={appKey}&ingr={query}"
  let base :=
    match nutritionType with
    | some t => base ++ s!"&nutrition-type={t}"
    | none => base
  match category with
  | some c => base ++ s!"&category={c}"
  | none => base

/-- `EdamamService.searchFoodDatabase`; returns the thrown-or-returned
outcome together with the number of network calls issued. -/
def searchFoodDatabase (env : EdamamEnv) (query : String)
    (nutritionType category : Option String)
    (oracle : String → FetchResult) (rnd : String) :
    Except String (List FoodSearchResult) × ℕ :=
  if jsFalsyS env.appId || jsFalsyS env.appKey then
    (.error "API credentials not configured", 0)
  else
    let url := buildParserUrl (env.appId.getD "") (env.appKey.getD "") query
      nutritionType category
    let response := oracle url
    if !response.ok then
      let st := response.status
      let et := response.bodyText
      (.error s!"API Error {st}: {et}", 1)
    else
      (.ok (parseFoodDatabase rnd response.json), 1)

/-- `EdamamService.searchFoods`: delegates and rewraps a thrown error. -/
def searchFoods (env : EdamamEnv) (query : String)
    (oracle : String → FetchResult) (rnd : String) :
    Except String (List FoodSearchResult) × ℕ :=
  match searchFoodDatabase env query none none oracle rnd with
  | (.ok results, n) => (.ok results, n)
  | (.error e, n) => (.error s!"Food Database API failed: Error: {e}", n)

/-- Drop leading whitespace characters. -/
def dropLeadingWs : List Char → List Char
  | [] => []
  | c :: cs => if c.isWhitespace then dropLeadingWs cs else c :: cs

/-- Model of `String.prototype.trim`: strip whitespace from both ends. -/
def jsTrim (s : String) : String :=
  String.mk ((dropLeadingWs ((dropLeadingWs s.toList).reverse)).reverse)

/-- The component state `searchFoods` (FoodSearchComponent.tsx) leaves
behind: the `searchResults` it set, the network calls issued, and the
alert raised on error (none on success). -/
structure SearchUiState where
  results : List FoodSearchResult
  networkCalls : ℕ
  alertMsg : Option String
deriving DecidableEq, Repr

/-- `searchFoods` of FoodSearchComponent.tsx: an empty trimmed query clears
the results and returns before any service call; otherwise the service is
called, errors are caught, alerted and replaced by empty results. -/
def componentSearchFoods (env : EdamamEnv) (oracle : String → FetchResult)
    (rnd : String) (query : String) : SearchUiState :=
  if jsTrim query = "" then ⟨[], 0, none⟩
  else
    match searchFoods env query oracle rnd with
    | (.ok rs, n) => ⟨rs, n, none⟩
    | (.error e, n) => ⟨[], n, some e⟩

/-- C4: a query that is empty or whitespace-only makes the nutrition search
return an empty result list with no network request and no error, whatever
the credential configuration. -/
theorem emptyQuery_shortCircuits :
    ∀ (env : EdamamEnv) (oracle : String → FetchResult) (rnd query : String),
      jsTrim query = "" →
      componentSearchFoods env oracle rnd query = ⟨[], 0, none⟩ := by
  intro env oracle rnd query h
  simp [componentSearchFoods, h]

/-- Witness for C4: a whitespace-only query under configured credentials. -/
theorem emptyQuery_shortCircuits_witness :
    componentSearchFoods ⟨some "id", some "key"⟩
        (fun _ => ⟨true, 200, "", ⟨none⟩⟩) "r" "   " = ⟨[], 0, none⟩ :=
  emptyQuery_shortCircuits _ _ _ _ (by decide)

/-- C6: with either credential absent, `searchFoodDatabase` fails with the
configuration error "API credentials not configured" and the network-call
counter stays at 0. -/
theorem missingCredentials_noNetwork :
    ∀ (env : EdamamEnv) (query : String) (nutritionType category : Option String)
      (oracle : String → FetchResult) (rnd : String),
      env.appId = none ∨ env.appKey = none →
      searchFoodDatabase env query nutritionType category oracle rnd =
        (.error "API credentials not configured", 0) := by
  intro env query nt cat oracle rnd h
  rcases h with h | h <;> simp [searchFoodDatabase, jsFalsyS, h]

/-- Witness for C6: no application key configured. -/
theorem missingCredentials_noNetwork_witness :
    searchFoodDatabase ⟨some "id", none⟩ "apple" none none
        (fun _ => ⟨true, 200, "", ⟨none⟩⟩) "r" =
      (.error "API credentials not configured", 0) :=
  missingCredentials_noNetwork _ _ _ _ _ _ (.inr rfl)

/-! ## Ordering facts about the collation model -/

theorem cmpNatList_eq_iff : ∀ x y : List ℕ, cmpNatList x y = .eq ↔ x = y := by
  intro x
  induction x with
  | nil => intro y; cases y <;> simp [cmpNatList]
  | cons a as ih =>
    intro y
    cases y with
    | nil => simp [cmpNatList]
    | cons b bs =>
      simp only [cmpNatList, List.cons.injEq]
      rcases Nat.lt_trichotomy a b with h | h | h
      · rw [if_pos h]
        constructor
        · intro hc; exact absurd hc (by decide)
        · rintro ⟨rfl, -⟩; exact absurd h (Nat.lt_irrefl a)
      · subst h
        rw [if_neg (Nat.lt_irrefl a), if_neg (Nat.lt_irrefl a), ih]
        simp
      · rw [if_neg (by omega), if_pos h]
        constructor
        · intro hc; exact absurd hc (by decide)
        · rintro ⟨rfl, -⟩; exact absurd h (Nat.lt_irrefl a)

theorem cmpNatList_swap : ∀ x y : List ℕ, cmpNatList y x = (cmpNatList x y).swap := by
  intro x
  induction x with
  | nil => intro y; cases y <;> rfl
  | cons a as ih =>
    intro y
    cases y with
    | nil => rfl
    | cons b bs =>
      by_cases h1 : a < b
      · have h2 : ¬ b < a := by omega
        simp [cmpNatList, h1, h2, Ordering.swap]
      · by_cases h2 : b < a
        · simp [cmpNatList, h1, h2, Ordering.swap]
        · simp [cmpNatList, h1, h2, ih bs]

theorem cmpNatList_le_trans :
    ∀ x y z : List ℕ, cmpNatList x y ≠ .gt → cmpNatList y z ≠ .gt →
      cmpNatList x z ≠ .gt := by
  intro x
  induction x with
  | nil => intro y z _ _; cases z <;> simp [cmpNatList]
  | cons a as ih =>
    intro y z h1 h2
    cases y with
    | nil => simp [cmpNatList] at h1
    | cons b bs =>
      cases z with
      | nil => simp [cmpNatList] at h2
      | cons c cs =>
        simp only [cmpNatList] at h1 h2 ⊢
        by_cases hab : a < b
        · have hcb : ¬ c < b := by
            intro hcb
            rw [if_neg (by omega), if_pos hcb] at h2
            exact h2 rfl
          have hac : a < c := by omega
          simp [hac]
        · have hba : ¬ b < a := by
            intro hba
            rw [if_neg hab, if_pos hba] at h1
            exact h1 rfl
          have hab' : a = b := by omega
          subst hab'
          have hrec1 : cmpNatList as bs ≠ .gt := by rwa [if_neg hab, if_neg hba] at h1
          by_cases hbc : a < c
          · simp [hbc]
          · have hcb : ¬ c < a := by
              intro hcb
              rw [if_neg hbc, if_pos hcb] at h2
              exact h2 rfl
            have hrec2 : cmpNatList bs cs ≠ .gt := by rwa [if_neg hbc, if_neg hcb] at h2
            rw [if_neg hbc, if_neg hcb]
            exact ih bs cs hrec1 hrec2

theorem cmpNatList_lt_of_lt_of_le :
    ∀ x y z : List ℕ, cmpNatList x y = .lt → cmpNatList y z ≠ .gt →
      cmpNatList x z = .lt := by
  intro x
  induction x with
  | nil =>
    intro y z h1 h2
    cases y with
    | nil => simp [cmpNatList] at h1
    | cons b bs =>
      cases z with
      | nil => simp [cmpNatList] at h2
      | cons c cs => rfl
  | cons a as ih =>
    intro y z h1 h2
    cases y with
    | nil => simp [cmpNatList] at h1
    | cons b bs =>
      cases z with
      | nil => simp [cmpNatList] at h2
      | cons c cs =>
        simp only [cmpNatList] at h1 h2 ⊢
        by_cases hab : a < b
        · have hcb : ¬ c < b := by
            intro hcb
            rw [if_neg (by omega), if_pos hcb] at h2
            exact h2 rfl
          have hac : a < c := by omega
          simp [hac]
        · have hba : ¬ b < a := by
            intro hba
            rw [if_neg hab, if_pos hba] at h1
            exact absurd h1 (by decide)
          have hab' : a = b := by omega
          subst hab'
          have hrec1 : cmpNatList as bs = .lt := by rwa [if_neg hab, if_neg hba] at h1
          by_cases hbc : a < c
          · simp [hbc]
          · have hcb : ¬ c < a := by
              intro hcb
              rw [if_neg hbc, if_pos hcb] at h2
              exact h2 rfl
            have hrec2 : cmpNatList bs cs ≠ .gt := by rwa [if_neg hbc, if_neg hcb] at h2
            rw [if_neg hbc, if_neg hcb]
            exact ih bs cs hrec1 hrec2

theorem localeCmp_swap (a b : String) : localeCmp b a = (localeCmp a b).swap := by
  unfold localeCmp
  rw [cmpNatList_swap (primKey a) (primKey b), cmpNatList_swap (caseKey a) (caseKey b)]
  cases cmpNatList (primKey a) (primKey b) <;> rfl

theorem localeCmp_le_trans {a b c : String} (h1 : localeCmp a b ≠ .gt)
    (h2 : localeCmp b c ≠ .gt) : localeCmp a c ≠ .gt := by
  unfold localeCmp at h1 h2 ⊢
  cases hab : cmpNatList (primKey a) (primKey b) with
  | gt => rw [hab] at h1; exact absurd rfl h1
  | eq =>
    have hpe : primKey a = primKey b := (cmpNatList_eq_iff _ _).mp hab
    rw [hab] at h1
    cases hbc : cmpNatList (primKey b) (primKey c) with
    | gt => rw [hbc] at h2; exact absurd rfl h2
    | eq =>
      have hpe2 : primKey b = primKey c := (cmpNatList_eq_iff _ _).mp hbc
      rw [hbc] at h2
      rw [(cmpNatList_eq_iff _ _).mpr (hpe.trans hpe2)]
      exact cmpNatList_le_trans _ _ _ h1 h2
    | lt =>
      rw [hpe, hbc]
      simp
  | lt =>
    rw [hab] at h1
    cases hbc : cmpNatList (primKey b) (primKey c) with
    | gt => rw [hbc] at h2; exact absurd rfl h2
    | eq =>
      have hpe2 : primKey b = primKey c := (cmpNatList_eq_iff _ _).mp hbc
      rw [← hpe2, hab]
      simp
    | lt =>
      rw [cmpNatList_lt_of_lt_of_le _ _ _ hab (by rw [hbc]; simp)]
      simp

theorem foodLe_total (a b : FoodSearchResult) :
    foodLe a b = true ∨ foodLe b a = true := by
  simp only [foodLe, decide_eq_true_eq]
  by_cases h : localeCmp a.label b.label = .gt
  · right
    rw [localeCmp_swap, h]
    decide
  · left
    exact h

theorem foodLe_trans {a b c : FoodSearchResult} (h1 : foodLe a b = true)
    (h2 : foodLe b c = true) : foodLe a c = true := by
  simp only [foodLe, decide_eq_true_eq] at h1 h2 ⊢
  exact localeCmp_le_trans h1 h2

/-- Any list produced by `parseFoodDatabase` is sorted under the
comparator's relation. -/
theorem parseFoodDatabase_pairwise (rnd : String) (data : EdamamData) :
    (parseFoodDatabase rnd data).Pairwise (fun a b => foodLe a b = true) := by
  unfold parseFoodDatabase
  cases data.parsed with
  | none => simp
  | some items =>
    haveI : IsTotal FoodSearchResult (fun a b => foodLe a b = true) :=
      ⟨fun a b => foodLe_total a b⟩
    haveI : IsTrans FoodSearchResult (fun a b => foodLe a b = true) :=
      ⟨fun _ _ _ h1 h2 => foodLe_trans h1 h2⟩
    exact List.sorted_insertionSort _ _

theorem localeCmp_eq_iff (a b : String) :
    localeCmp a b = .eq ↔ primKey a = primKey b ∧ caseKey a = caseKey b := by
  unfold localeCmp
  cases h : cmpNatList (primKey a) (primKey b) with
  | eq =>
    have hpe := (cmpNatList_eq_iff _ _).mp h
    simp [hpe, cmpNatList_eq_iff]
  | lt =>
    show Ordering.lt = Ordering.eq ↔ primKey a = primKey b ∧ caseKey a = caseKey b
    constructor
    · intro hc; exact absurd hc (by decide)
    · intro hc
      rw [(cmpNatList_eq_iff _ _).mpr hc.1] at h
      exact absurd h (by decide)
  | gt =>
    show Ordering.gt = Ordering.eq ↔ primKey a = primKey b ∧ caseKey a = caseKey b
    constructor
    · intro hc; exact absurd hc (by decide)
    · intro hc
      rw [(cmpNatList_eq_iff _ _).mpr hc.1] at h
      exact absurd h (by decide)

theorem filter_orderedInsert_pos {α : Type} (r : α → α → Prop) [DecidableRel r]
    (p : α → Bool) (x : α) :
    ∀ L : List α, p x = true → (∀ y ∈ L, p y = true → r x y) →
      (List.orderedInsert r x L).filter p = x :: L.filter p := by
  intro L
  induction L with
  | nil =>
    intro hx _
    simp [List.orderedInsert, hx]
  | cons b L' ih =>
    intro hx h
    simp only [List.orderedInsert]
    by_cases hrb : r x b
    · rw [if_pos hrb]
      simp [List.filter_cons, hx]
    · rw [if_neg hrb]
      have hpb : p b = false := by
        cases hpb : p b with
        | true => exact absurd (h b (by simp) hpb) hrb
        | false => rfl
      rw [List.filter_cons_of_neg (by simp [hpb]),
        ih hx (fun y hy hpy => h y (by simp [hy]) hpy),
        List.filter_cons_of_neg (by simp [hpb])]

theorem filter_orderedInsert_neg {α : Type} (r : α → α → Prop) [DecidableRel r]
    (p : α → Bool) (x : α) :
    ∀ L : List α, p x = false → (List.orderedInsert r x L).filter p = L.filter p := by
  intro L
  induction L with
  | nil =>
    intro hx
    simp [List.orderedInsert, hx]
  | cons b L' ih =>
    intro hx
    simp only [List.orderedInsert]
    by_cases hrb : r x b
    · rw [if_pos hrb, List.filter_cons_of_neg (by simp [hx])]
    · rw [if_neg hrb, List.filter_cons, List.filter_cons, ih hx]

/-- Stability of the embedded `Array.prototype.sort`: a class of pairwise
`r`-equivalent elements (such as labels comparing equal under the
collation) comes out of the sort in its original relative order. -/
theorem insertionSort_filter_stable {α : Type} (r : α → α → Prop) [DecidableRel r]
    (p : α → Bool) (hp : ∀ a b, p a = true → p b = true → r a b) :
    ∀ l : List α, (List.insertionSort r l).filter p = l.filter p := by
  intro l
  induction l with
  | nil => rfl
  | cons x xs ih =>
    simp only [List.insertionSort]
    cases hx : p x with
    | true =>
      rw [filter_orderedInsert_pos r p x _ hx (fun y hy hpy => hp x y hx hpy),
        ih, List.filter_cons_of_pos hx]
    | false =>
      rw [filter_orderedInsert_neg r p x _ hx, ih,
        List.filter_cons_of_neg (by simp [hx])]

/-- The sort inside `parseFoodDatabase` is stable: for every key, the
items whose label compares equal to it under the collation keep exactly
the order they had in the parsed (filtered and normalized) input. -/
theorem parseFoodDatabase_stable (rnd : String) (data : EdamamData) (key : String) :
    (parseFoodDatabase rnd data).filter
        (fun f => decide (localeCmp f.label key = Ordering.eq)) =
      (((data.parsed.getD []).filter keepItem).map (toSearchResult rnd)).filter
        (fun f => decide (localeCmp f.label key = Ordering.eq)) := by
  unfold parseFoodDatabase
  cases hp : data.parsed with
  | none => simp
  | some items =>
    simp only [Option.getD_some]
    apply insertionSort_filter_stable
    intro a b ha hb
    obtain ⟨hap, hac⟩ := (localeCmp_eq_iff _ _).mp (of_decide_eq_true ha)
    obtain ⟨hbp, hbc⟩ := (localeCmp_eq_iff _ _).mp (of_decide_eq_true hb)
    have hab : localeCmp a.label b.label = .eq :=
      (localeCmp_eq_iff _ _).mpr ⟨hap.trans hbp.symm, hac.trans hbc.symm⟩
    simp [foodLe, hab]

/-- Written from the spec's words: sort the labels case-insensitively
(primary key only) with equal keys left in the original order — which the
stable insertion sort provides. -/
def claimSortedResults (l : List FoodSearchResult) : List FoodSearchResult :=
  List.insertionSort
    (fun a b => cmpNatList (primKey a.label) (primKey b.label) ≠ Ordering.gt) l

/-- A minimal `parsed` item with the given label and 50 kcal energy. -/
def mkItem (label : String) : ParsedItemJson :=
  ⟨some ⟨some "fid", some label, none, some ⟨some 50⟩⟩, none⟩

/-- The spec's three-label example response. -/
def dataThreeLabels : EdamamData :=
  ⟨some [mkItem "banana", mkItem "Apple", mkItem "apple pie"]⟩

/-- A minimal `parsed` item with a chosen food id, the given label and
50 kcal energy. -/
def mkItemId (fid label : String) : ParsedItemJson :=
  ⟨some ⟨some fid, some label, none, some ⟨some 50⟩⟩, none⟩

/-- A response with two items labelled identically ("apple", distinct ids)
plus a "banana", to exhibit the stable ordering of equal labels. -/
def dataDupLabels : EdamamData :=
  ⟨some [mkItemId "b1" "banana", mkItemId "a1" "apple", mkItemId "a2" "apple"]⟩

/-- The oracle answering the duplicate-label response. -/
def oracleDupLabels : String → FetchResult := fun _ => ⟨true, 200, "", dataDupLabels⟩

/-- A response whose two labels differ only by case, in uppercase-first
original order. -/
def dataAppleCase : EdamamData := ⟨some [mkItem "Apple", mkItem "apple"]⟩

/-- Any successful `searchFoodDatabase` call returns exactly the parsed
and sorted body of the response the oracle delivered for the built URL. -/
theorem searchFoodDatabase_ok_eq :
    ∀ (env : EdamamEnv) (query : String) (nutritionType category : Option String)
      (oracle : String → FetchResult) (rnd : String)
      (results : List FoodSearchResult) (n : ℕ),
      searchFoodDatabase env query nutritionType category oracle rnd =
        (.ok results, n) →
      results = parseFoodDatabase rnd
        (oracle (buildParserUrl (env.appId.getD "") (env.appKey.getD "")
          query nutritionType category)).json := by
  intro env query nt cat oracle rnd results n h
  unfold searchFoodDatabase at h
  by_cases hcred : (jsFalsyS env.appId || jsFalsyS env.appKey) = true
  · rw [if_pos hcred] at h
    simp at h
  · rw [if_neg hcred] at h
    by_cases hok : (oracle (buildParserUrl (env.appId.getD "") (env.appKey.getD "")
        query nt cat)).ok = true
    · simp only [hok, Bool.not_true, Bool.false_eq_true, if_false] at h
      obtain ⟨heq, -⟩ : parseFoodDatabase rnd (oracle (buildParserUrl
          (env.appId.getD "") (env.appKey.getD "") query nt cat)).json = results ∧
          1 = n := by
        simpa using h
      exact heq.symm
    · simp only [Bool.not_eq_true] at hok
      simp [hok] at h

/-- Counterexample to C5 as stated: the comparator
`a.label.localeCompare(b.label)` is not tie-stable on labels that differ
only by case — the default collation orders lowercase before uppercase, so
`["Apple", "apple"]` comes out `["apple", "Apple"]`, while the claimed
case-insensitive sort with ties in original order keeps `["Apple", "apple"]`. -/
theorem searchResults_order_counterexample :
    (parseFoodDatabase "r0" dataAppleCase).map (fun f => f.label) =
        ["apple", "Apple"] ∧
      (claimSortedResults (((dataAppleCase.parsed.getD []).filter keepItem).map
          (toSearchResult "r0"))).map (fun f => f.label) = ["Apple", "apple"] ∧
      parseFoodDatabase "r0" dataAppleCase ≠
        claimSortedResults (((dataAppleCase.parsed.getD []).filter keepItem).map
          (toSearchResult "r0")) := by
  refine ⟨by decide, by decide, by decide⟩

/-- C5 (amended): every successful `searchFoodDatabase` result list is
sorted ascending by the default-locale collation of
`label.localeCompare` — case-insensitive at primary strength, labels
differing only by case ordered lowercase-first rather than by original
position — and the sort is stable: for every key, the results whose label
compares equal to it under the collation keep exactly the relative order
they had in the parsed response; the spec's example
`["banana", "Apple", "apple pie"]` still yields
`["Apple", "apple pie", "banana"]`. -/
theorem searchResults_sorted_amended :
    (∀ (env : EdamamEnv) (query : String) (nutritionType category : Option String)
        (oracle : String → FetchResult) (rnd : String)
        (results : List FoodSearchResult) (n : ℕ),
        searchFoodDatabase env query nutritionType category oracle rnd =
          (.ok results, n) →
        results.Pairwise (fun a b => foodLe a b = true)) ∧
      (∀ (env : EdamamEnv) (query : String) (nutritionType category : Option String)
        (oracle : String → FetchResult) (rnd : String)
        (results : List FoodSearchResult) (n : ℕ),
        searchFoodDatabase env query nutritionType category oracle rnd =
          (.ok results, n) →
        ∀ key : String,
          results.filter (fun f => decide (localeCmp f.label key = Ordering.eq)) =
            ((((oracle (buildParserUrl (env.appId.getD "") (env.appKey.getD "")
                  query nutritionType category)).json.parsed.getD []).filter
                keepItem).map (toSearchResult rnd)).filter
              (fun f => decide (localeCmp f.label key = Ordering.eq))) ∧
      (parseFoodDatabase "r0" dataThreeLabels).map (fun f => f.label) =
        ["Apple", "apple pie", "banana"] := by
  refine ⟨?_, ?_, by decide⟩
  · intro env query nt cat oracle rnd results n h
    rw [searchFoodDatabase_ok_eq env query nt cat oracle rnd results n h]
    exact parseFoodDatabase_pairwise _ _
  · intro env query nt cat oracle rnd results n h key
    rw [searchFoodDatabase_ok_eq env query nt cat oracle rnd results n h]
    exact parseFoodDatabase_stable _ _ _

/-- The oracle that answers the spec's three-label example. -/
def oracleThreeLabels : String → FetchResult := fun _ => ⟨true, 200, "", dataThreeLabels⟩

/-- Witness for the amended C5: a concrete call whose result list the
theorem shows sorted, and a call with two identically-labelled "apple"
items whose class the theorem keeps in original order. -/
theorem searchResults_sorted_amended_witness :
    (searchFoodDatabase ⟨some "id", some "key"⟩ "apple" none none
        oracleThreeLabels "r0" = (.ok (parseFoodDatabase "r0" dataThreeLabels), 1) ∧
      (parseFoodDatabase "r0" dataThreeLabels).Pairwise
        (fun a b => foodLe a b = true)) ∧
    (searchFoodDatabase ⟨some "id", some "key"⟩ "apple" none none
        oracleDupLabels "r0" = (.ok (parseFoodDatabase "r0" dataDupLabels), 1) ∧
      (parseFoodDatabase "r0" dataDupLabels).filter
          (fun f => decide (localeCmp f.label "apple" = Ordering.eq)) =
        (((dataDupLabels.parsed.getD []).filter keepItem).map
            (toSearchResult "r0")).filter
          (fun f => decide (localeCmp f.label "apple" = Ordering.eq))) :=
  ⟨⟨rfl, searchResults_sorted_amended.1 ⟨some "id", some "key"⟩ "apple" none none
      oracleThreeLabels "r0" _ 1 rfl⟩,
    ⟨rfl, searchResults_sorted_amended.2.1 ⟨some "id", some "key"⟩ "apple" none none
      oracleDupLabels "r0" _ 1 rfl "apple"⟩⟩

/-! ## Calorie Calculator weight presets (FoodCalculator.getWeightPresets) -/

/-- Does `pat` occur at the head of `s`? -/
def leadMatch : List Char → List Char → Bool
  | _, [] => true
  | [], _ :: _ => false
  | a :: as, b :: bs => a == b && leadMatch as bs

/-- Does `pat` occur anywhere in `s`?  Model of `String.includes`. -/
def hasSub : List Char → List Char → Bool
  | [], pat => leadMatch [] pat
  | a :: t, pat => leadMatch (a :: t) pat || hasSub t pat

/-- The keyword list of `FoodCalculator.isCommonMeasure`. -/
def commonTerms : List String :=
  ["cup", "piece", "serving", "slice", "tablespoon", "teaspoon", "ounce", "item"]

/-- `FoodCalculator.isCommonMeasure`:
`commonTerms.some(term => label.toLowerCase().includes(term))`. -/
def isCommonMeasure (label : String) : Bool :=
  commonTerms.any (fun term => hasSub (label.toList.map Char.toLower) term.toList)

/-- The sort relation of `getWeightPresets`' comparator: common measures
first (`return bCommon ? 1 : -1`), then ascending `(a.weight || 0) - (b.weight || 0)`. -/
def measureLe (a b : Measure) : Bool :=
  if isCommonMeasure a.label != isCommonMeasure b.label then isCommonMeasure a.label
  else decide (a.weight.getD 0 ≤ b.weight.getD 0)

/-- The ascending-by-weight relation alone (used by the claim's partition
description). -/
def wLe (a b : Measure) : Bool :=
  decide (a.weight.getD 0 ≤ b.weight.getD 0)

/-- A preset offered to the user. -/
structure WeightPreset where
  label : String
  weight : ℚ
deriving DecidableEq, Repr

/-- The `.map` at the end of the measure pipeline:
`{ label: measure.label, weight: measure.weight || 100 }`. -/
def toPreset (m : Measure) : WeightPreset := ⟨m.label, jsOrQ m.weight 100⟩

/-- The filter `measure.weight && measure.weight > 0 && measure.weight <= 500`. -/
def isValidMeasure (m : Measure) : Bool :=
  match m.weight with
  | none => false
  | some w => decide (0 < w) && decide (w ≤ 500)

/-- The backfill candidates `[50, 100, 150, 200, 250]`. -/
def gramCandidates : List ℕ := [50, 100, 150, 200, 250]

/-- Model of `Math.abs`. -/
def jsAbs (q : ℚ) : ℚ := if q < 0 then -q else q

theorem jsAbs_eq_abs (q : ℚ) : jsAbs q = |q| := by
  unfold jsAbs
  by_cases h : q < 0
  · rw [if_pos h, abs_of_neg h]
  · rw [if_neg h, abs_of_nonneg (le_of_not_lt h)]

/-- `validMeasures.some(m => Math.abs(m.weight - weight) < 10)`. -/
def nearExisting (cur : List WeightPreset) (w : ℕ) : Bool :=
  cur.any (fun m => decide (jsAbs (qSub m.weight (w : ℚ)) < 10))

/-- The first backfill candidate not within 10 g of a chosen weight (the
inner `for`/`break` of the backfill loop). -/
def firstAvail (cur : List WeightPreset) : Option ℕ :=
  gramCandidates.find? (fun w => !nearExisting cur w)

/-- The pushed gram preset `{ label: weight + "g", weight }`. -/
def gramPreset (w : ℕ) : WeightPreset := ⟨s!"{w}g", (w : ℚ)⟩

/-- Fuel-indexed embedding of the `while (validMeasures.length < 4)`
backfill loop; `none` means the fuel ran out while the loop would have kept
running.  `fillLoop_isSome` below shows fuel 5 always suffices, so the loop
terminates. -/
def fillLoop : ℕ → List WeightPreset → Option (List WeightPreset)
  | 0, cur => if cur.length < 4 then none else some cur
  | fuel + 1, cur =>
      if cur.length < 4 then
        match firstAvail cur with
        | some w => fillLoop fuel (cur ++ [gramPreset w])
        | none => fillLoop fuel cur
      else some cur

/-- The terminating while loop (fuel 5 provably never runs out). -/
def fillTotal (cur : List WeightPreset) : List WeightPreset :=
  (fillLoop 5 cur).getD cur

/-- The fixed presets returned when no measures are available. -/
def fixedPresets : List WeightPreset :=
  [⟨"50g", 50⟩, ⟨"100g", 100⟩, ⟨"150g", 150⟩, ⟨"200g", 200⟩]

/-- The filter-sort-slice-map prefix of `getWeightPresets`' measure
pipeline (`Array.prototype.sort` with the comparator is the stable
`List.insertionSort` with `measureLe`). -/
def sortedKept (ms : List Measure) : List WeightPreset :=
  ((List.insertionSort (fun a b => measureLe a b = true)
      (ms.filter isValidMeasure)).take 4).map toPreset

/-- `FoodCalculator.getWeightPresets`. -/
def getWeightPresets (searchResult : FoodSearchResult) : List WeightPreset :=
  match searchResult.measures with
  | none => fixedPresets
  | some [] => fixedPresets
  | some ms => (fillTotal (sortedKept ms)).take 4

/-- Written from claim C2's words: partition the valid measures by
"is common unit" with NON-common first, each partition ascending by
weight, take 4. -/
def claimKeptOriginal (ms : List Measure) : List WeightPreset :=
  ((List.insertionSort (fun a b => wLe a b = true)
        ((ms.filter isValidMeasure).filter (fun m => !isCommonMeasure m.label)) ++
      List.insertionSort (fun a b => wLe a b = true)
        ((ms.filter isValidMeasure).filter (fun m => isCommonMeasure m.label))).take 4).map
    toPreset

/-- The claim's partition pipeline with the partition order corrected to
what the code does: common-unit measures first. -/
def claimKeptCommonFirst (ms : List Measure) : List WeightPreset :=
  ((List.insertionSort (fun a b => wLe a b = true)
        ((ms.filter isValidMeasure).filter (fun m => isCommonMeasure m.label)) ++
      List.insertionSort (fun a b => wLe a b = true)
        ((ms.filter isValidMeasure).filter (fun m => !isCommonMeasure m.label))).take 4).map
    toPreset

/-! ## C2: the comparator sort equals a partition, common measures first -/

theorem measureLe_eq_wLe {x a : Measure}
    (h : isCommonMeasure x.label = isCommonMeasure a.label) :
    measureLe x a = wLe x a := by
  simp [measureLe, wLe, h]

theorem measureLe_true_of_common {x b : Measure}
    (hx : isCommonMeasure x.label = true) (hb : isCommonMeasure b.label = false) :
    measureLe x b = true := by
  simp [measureLe, hx, hb]

theorem measureLe_false_of_noncommon {x b : Measure}
    (hx : isCommonMeasure x.label = false) (hb : isCommonMeasure b.label = true) :
    measureLe x b = false := by
  simp [measureLe, hx, hb]

theorem orderedInsert_congr_wLe (x : Measure) :
    ∀ B : List Measure, (∀ b ∈ B, measureLe x b = wLe x b) →
      List.orderedInsert (fun a b => measureLe a b = true) x B =
        List.orderedInsert (fun a b => wLe a b = true) x B := by
  intro B
  induction B with
  | nil => intro _; rfl
  | cons b B' ih =>
    intro h
    simp only [List.orderedInsert]
    have hxb : measureLe x b = wLe x b := h b (by simp)
    by_cases hw : wLe x b = true
    · rw [if_pos (hxb.trans hw), if_pos hw]
    · rw [if_neg (fun hc => hw (hxb.symm.trans hc)), if_neg hw,
        ih (fun a ha => h a (by simp [ha]))]

theorem orderedInsert_append_common (x : Measure) :
    ∀ (A B : List Measure), (∀ a ∈ A, measureLe x a = wLe x a) →
      (∀ b ∈ B, measureLe x b = true) →
      List.orderedInsert (fun a b => measureLe a b = true) x (A ++ B) =
        List.orderedInsert (fun a b => wLe a b = true) x A ++ B := by
  intro A
  induction A with
  | nil =>
    intro B _ hB
    cases B with
    | nil => rfl
    | cons b B' =>
      simp only [List.nil_append, List.orderedInsert]
      rw [if_pos (hB b (by simp))]
      rfl
  | cons a A' ih =>
    intro B hA hB
    simp only [List.cons_append, List.orderedInsert, List.append_eq]
    have hxa : measureLe x a = wLe x a := hA a (by simp)
    by_cases hw : wLe x a = true
    · rw [if_pos (hxa.trans hw), if_pos hw]
      rfl
    · rw [if_neg (fun hc => hw (hxa.symm.trans hc)), if_neg hw,
        ih B (fun a ha => hA a (by simp [ha])) hB]
      rfl

theorem orderedInsert_append_noncommon (x : Measure) :
    ∀ (A B : List Measure), (∀ a ∈ A, measureLe x a = false) →
      (∀ b ∈ B, measureLe x b = wLe x b) →
      List.orderedInsert (fun a b => measureLe a b = true) x (A ++ B) =
        A ++ List.orderedInsert (fun a b => wLe a b = true) x B := by
  intro A
  induction A with
  | nil =>
    intro B _ hB
    simpa using orderedInsert_congr_wLe x B hB
  | cons a A' ih =>
    intro B hA hB
    simp only [List.cons_append, List.orderedInsert, List.append_eq]
    rw [if_neg (by simp [hA a (by simp)])]
    rw [ih B (fun a ha => hA a (by simp [ha])) hB]

theorem insertionSort_measure_partition (l : List Measure) :
    List.insertionSort (fun a b => measureLe a b = true) l =
      List.insertionSort (fun a b => wLe a b = true)
          (l.filter (fun m => isCommonMeasure m.label)) ++
        List.insertionSort (fun a b => wLe a b = true)
          (l.filter (fun m => !isCommonMeasure m.label)) := by
  induction l with
  | nil => rfl
  | cons x l' ih =>
    simp only [List.insertionSort]
    rw [ih]
    cases hx : isCommonMeasure x.label with
    | true =>
      rw [orderedInsert_append_common x _ _ ?hA ?hB]
      case hA =>
        intro a ha
        have hmem := (List.perm_insertionSort _ _).mem_iff.mp ha
        exact measureLe_eq_wLe (hx.trans ((List.mem_filter.mp hmem).2).symm)
      case hB =>
        intro b hb
        have hmem := (List.perm_insertionSort _ _).mem_iff.mp hb
        have hbn : isCommonMeasure b.label = false := by
          simpa using (List.mem_filter.mp hmem).2
        exact measureLe_true_of_common hx hbn
      rw [List.filter_cons_of_pos (by simp [hx]), List.filter_cons_of_neg (by simp [hx])]
      rfl
    | false =>
      rw [orderedInsert_append_noncommon x _ _ ?hA2 ?hB2]
      case hA2 =>
        intro a ha
        have hmem := (List.perm_insertionSort _ _).mem_iff.mp ha
        exact measureLe_false_of_noncommon hx ((List.mem_filter.mp hmem).2)
      case hB2 =>
        intro b hb
        have hmem := (List.perm_insertionSort _ _).mem_iff.mp hb
        have hbn : isCommonMeasure b.label = false := by
          simpa using (List.mem_filter.mp hmem).2
        exact measureLe_eq_wLe (hx.trans hbn.symm)
      rw [List.filter_cons_of_neg (by simp [hx]), List.filter_cons_of_pos (by simp [hx])]
      rfl

theorem claimKeptCommonFirst_eq_sortedKept (ms : List Measure) :
    claimKeptCommonFirst ms = sortedKept ms := by
  unfold claimKeptCommonFirst sortedKept
  rw [insertionSort_measure_partition]

theorem sortedKept_length_le (ms : List Measure) : (sortedKept ms).length ≤ 4 := by
  simp only [sortedKept, List.length_map, List.length_take]
  omega

/-! ## C3: the backfill loop terminates and fills to exactly 4 -/

/-- The pushed preset's weight is at least 10 g away from every weight in
`ms` (the negation of the code's `some(...)` test). -/
def farFrom (ms : List WeightPreset) (w : ℚ) : Prop :=
  ∀ m ∈ ms, ¬ jsAbs (qSub m.weight w) < 10

/-- Every entry of `added` is at least 10 g from all entries before it
(both the pre-existing ones and the previously added ones). -/
def addedOk : List WeightPreset → List WeightPreset → Prop
  | _, [] => True
  | ms, p :: rest => farFrom ms p.weight ∧ addedOk (ms ++ [p]) rest

theorem near_both_close {x : ℚ} {u v : ℕ} (hu : jsAbs (qSub x u) < 10)
    (hv : jsAbs (qSub x v) < 10) : |(u : ℚ) - v| < 20 := by
  rw [jsAbs_eq_abs, qSub_eq] at hu hv
  calc |(u : ℚ) - v| ≤ |(u : ℚ) - x| + |x - v| := abs_sub_le _ _ _
    _ = |x - u| + |x - v| := by rw [abs_sub_comm]
    _ < 20 := by linarith

theorem pairwise_filter_length_le_one {α : Type} (p : α → Bool) :
    ∀ l : List α, l.Pairwise (fun u v => ¬(p u = true ∧ p v = true)) →
      (l.filter p).length ≤ 1 := by
  intro l
  induction l with
  | nil => intro _; simp
  | cons a t ih =>
    intro h
    rw [List.pairwise_cons] at h
    by_cases hp : p a = true
    · have ht : t.filter p = [] :=
        List.filter_eq_nil_iff.mpr (fun x hx hpx => (h.1 x hx) ⟨hp, hpx⟩)
      simp [List.filter_cons, hp, ht]
    · simp only [List.filter_cons, hp, Bool.false_eq_true, if_false]
      exact ih h.2

theorem filter_or_length_le {α : Type} (p q : α → Bool) (l : List α) :
    (l.filter (fun a => p a || q a)).length ≤
      (l.filter p).length + (l.filter q).length := by
  induction l with
  | nil => simp
  | cons a t ih =>
    simp only [List.filter_cons]
    by_cases hp : p a = true <;> by_cases hq : q a = true <;>
      simp [hp, hq, List.length_cons] <;> omega

theorem near_filter_length_le_one (x : ℚ) :
    (gramCandidates.filter
      (fun (w : ℕ) => decide (jsAbs (qSub x (Nat.cast w)) < 10))).length ≤ 1 := by
  apply pairwise_filter_length_le_one
  have hfar : gramCandidates.Pairwise
      (fun (u v : ℕ) => (20 : ℚ) ≤ |(u : ℚ) - (v : ℚ)|) := by
    simp only [gramCandidates, List.pairwise_cons, List.mem_cons, List.mem_singleton,
      List.not_mem_nil]
    norm_num
  refine hfar.imp ?_
  intro u v huv hcontra
  obtain ⟨hu, hv⟩ := hcontra
  have h20 := near_both_close (of_decide_eq_true hu) (of_decide_eq_true hv)
  linarith

theorem blocked_candidates_le (cur : List WeightPreset) :
    (gramCandidates.filter (fun w => nearExisting cur w)).length ≤ cur.length := by
  induction cur with
  | nil =>
    simp [nearExisting]
  | cons m rest ih =>
    have hsplit : ∀ w ∈ gramCandidates, nearExisting (m :: rest) w =
        (decide (jsAbs (qSub m.weight (Nat.cast w)) < 10) || nearExisting rest w) := by
      intro w _
      simp [nearExisting]
    calc (gramCandidates.filter (fun w => nearExisting (m :: rest) w)).length
        = (gramCandidates.filter (fun (w : ℕ) =>
            decide (jsAbs (qSub m.weight (Nat.cast w)) < 10) || nearExisting rest w)).length := by
          rw [List.filter_congr hsplit]
      _ ≤ _ + _ := filter_or_length_le _ _ _
      _ ≤ 1 + rest.length :=
          Nat.add_le_add (near_filter_length_le_one m.weight) ih
      _ = (m :: rest).length := by simp [Nat.add_comm]

theorem firstAvail_isSome {cur : List WeightPreset} (h : cur.length ≤ 3) :
    (firstAvail cur).isSome = true := by
  rw [firstAvail]
  cases hf : gramCandidates.find? (fun w => !nearExisting cur w) with
  | some w => rfl
  | none =>
    exfalso
    have hall := List.find?_eq_none.mp hf
    have hself : gramCandidates.filter (fun w => nearExisting cur w) = gramCandidates := by
      apply List.filter_eq_self.mpr
      intro w hw
      have := hall w hw
      simpa using this
    have hlen := blocked_candidates_le cur
    rw [hself] at hlen
    simp [gramCandidates] at hlen
    omega

theorem fillLoop_isSome :
    ∀ (fuel : ℕ) (cur : List WeightPreset), 4 - cur.length ≤ fuel →
      (fillLoop fuel cur).isSome = true := by
  intro fuel
  induction fuel with
  | zero =>
    intro cur h
    simp only [fillLoop]
    rw [if_neg (by omega)]
    rfl
  | succ fuel ih =>
    intro cur h
    simp only [fillLoop]
    by_cases hl : cur.length < 4
    · rw [if_pos hl]
      cases hfa : firstAvail cur with
      | some w =>
        apply ih
        simp only [List.length_append, List.length_cons, List.length_nil]
        omega
      | none =>
        have hs := @firstAvail_isSome cur (by omega)
        rw [hfa] at hs
        simp at hs
    · rw [if_neg hl]
      rfl

theorem fillLoop_length :
    ∀ (fuel : ℕ) (cur res : List WeightPreset), fillLoop fuel cur = some res →
      (cur.length < 4 → res.length = 4) ∧ (4 ≤ cur.length → res = cur) := by
  intro fuel
  induction fuel with
  | zero =>
    intro cur res h
    simp only [fillLoop] at h
    by_cases hl : cur.length < 4
    · rw [if_pos hl] at h
      simp at h
    · rw [if_neg hl] at h
      obtain rfl := Option.some.inj h
      exact ⟨fun hc => absurd hc hl, fun _ => rfl⟩
  | succ fuel ih =>
    intro cur res h
    simp only [fillLoop] at h
    by_cases hl : cur.length < 4
    · rw [if_pos hl] at h
      cases hfa : firstAvail cur with
      | some w =>
        rw [hfa] at h
        have hrec := ih _ _ h
        refine ⟨fun _ => ?_, fun hc => absurd hc (by omega)⟩
        by_cases hl2 : (cur ++ [gramPreset w]).length < 4
        · exact hrec.1 hl2
        · have hres := hrec.2 (by omega)
          rw [hres]
          simp only [List.length_append, List.length_cons, List.length_nil] at hl2 ⊢
          omega
      | none =>
        rw [hfa] at h
        exact ih _ _ h
    · rw [if_neg hl] at h
      obtain rfl := Option.some.inj h
      exact ⟨fun hc => absurd hc hl, fun _ => rfl⟩

theorem fillLoop_frame :
    ∀ (fuel : ℕ) (cur res : List WeightPreset), fillLoop fuel cur = some res →
      ∃ added, res = cur ++ added ∧ addedOk cur added := by
  intro fuel
  induction fuel with
  | zero =>
    intro cur res h
    simp only [fillLoop] at h
    by_cases hl : cur.length < 4
    · rw [if_pos hl] at h
      simp at h
    · rw [if_neg hl] at h
      obtain rfl := Option.some.inj h
      exact ⟨[], by simp, trivial⟩
  | succ fuel ih =>
    intro cur res h
    simp only [fillLoop] at h
    by_cases hl : cur.length < 4
    · rw [if_pos hl] at h
      cases hfa : firstAvail cur with
      | some w =>
        rw [hfa] at h
        obtain ⟨added', hres, hok⟩ := ih _ _ h
        refine ⟨gramPreset w :: added', by simp [hres], ⟨?_, hok⟩⟩
        have hne : nearExisting cur w = false := by
          have hfind := List.find?_some hfa
          simpa using hfind
        intro m hm hcontra
        exact absurd (decide_eq_true hcontra) (by
          simpa using List.any_eq_false.mp hne m hm)
      | none =>
        rw [hfa] at h
        exact ih _ _ h
    · rw [if_neg hl] at h
      obtain rfl := Option.some.inj h
      exact ⟨[], by simp, trivial⟩

theorem addedOk_take :
    ∀ (added : List WeightPreset) (k : ℕ) (ms : List WeightPreset),
      addedOk ms added → addedOk ms (added.take k) := by
  intro added
  induction added with
  | nil =>
    intro k ms _
    simp only [List.take_nil]
    trivial
  | cons p rest ih =>
    intro k ms h
    cases k with
    | zero => trivial
    | succ k' =>
      obtain ⟨hfar, hok⟩ := h
      exact ⟨hfar, ih k' _ hok⟩

theorem getWeightPresets_measures_eq (r : FoodSearchResult) (m : Measure)
    (t : List Measure) (h : r.measures = some (m :: t)) :
    getWeightPresets r = (fillTotal (sortedKept (m :: t))).take 4 := by
  rw [getWeightPresets, h]

/-- A search result with one common-unit measure (240 g) and one
plain-weight measure (30 g). -/
def rCupPortion : FoodSearchResult :=
  ⟨"food", 0, "id", none,
    some [⟨"", "1 cup", some 240⟩, ⟨"", "small portion", some 30⟩]⟩

/-- Counterexample to C2 as stated: the comparator comment says
"Prioritize common measures" and the code does put common-unit measures
FIRST (`return bCommon ? 1 : -1`), while the claim orders plain-weight
measures first.  On a cup (240 g) and a plain 30 g measure the code yields
the cup first; the claim's pipeline yields the plain weight first. -/
theorem weightPresets_order_counterexample :
    (getWeightPresets rCupPortion).take 2 =
        [⟨"1 cup", 240⟩, ⟨"small portion", 30⟩] ∧
      claimKeptOriginal [⟨"", "1 cup", some 240⟩, ⟨"", "small portion", some 30⟩] =
        [⟨"small portion", 30⟩, ⟨"1 cup", 240⟩] ∧
      (getWeightPresets rCupPortion).take
          (claimKeptOriginal [⟨"", "1 cup", some 240⟩, ⟨"", "small portion", some 30⟩]).length ≠
        claimKeptOriginal [⟨"", "1 cup", some 240⟩, ⟨"", "small portion", some 30⟩] := by
  refine ⟨by decide, by decide, by decide⟩

/-- C2 (amended): for a result with a non-empty measures list, the presets
start with exactly the claim's pipeline with the partition order flipped:
keep measures with weight in (0, 500], put COMMON-unit-labeled measures
first and plain-weight ones after, each partition ascending by weight, and
take the first 4; backfilled gram presets may follow when fewer than 4
measures survive. -/
theorem weightPresets_commonFirst :
    ∀ (r : FoodSearchResult) (ms : List Measure), r.measures = some ms → ms ≠ [] →
      (getWeightPresets r).take (claimKeptCommonFirst ms).length =
        claimKeptCommonFirst ms := by
  intro r ms h hne
  rw [claimKeptCommonFirst_eq_sortedKept]
  cases ms with
  | nil => exact absurd rfl hne
  | cons m t =>
    rw [getWeightPresets_measures_eq r m t h]
    have h5 := fillLoop_isSome 5 (sortedKept (m :: t)) (by omega)
    obtain ⟨res, hres⟩ := Option.isSome_iff_exists.mp h5
    obtain ⟨added, hre, -⟩ := fillLoop_frame 5 _ _ hres
    have hkle : (sortedKept (m :: t)).length ≤ 4 := sortedKept_length_le _
    rw [fillTotal, hres, Option.getD_some, hre, List.take_take,
      min_eq_left hkle, List.take_left]

/-- Witness for the amended C2 at the cup-and-portion result. -/
theorem weightPresets_commonFirst_witness :
    (getWeightPresets rCupPortion).take
        (claimKeptCommonFirst
          [⟨"", "1 cup", some 240⟩, ⟨"", "small portion", some 30⟩]).length =
      claimKeptCommonFirst [⟨"", "1 cup", some 240⟩, ⟨"", "small portion", some 30⟩] :=
  weightPresets_commonFirst rCupPortion _ rfl (by decide)

/-- A search result with two plain measures 5 g apart (both valid). -/
def rCloseWeights : FoodSearchResult :=
  ⟨"food", 0, "id", none,
    some [⟨"", "gram portion A", some 100⟩, ⟨"", "gram portion B", some 105⟩]⟩

/-- Counterexample to C3 as stated: the kept provider measures are not
checked against each other, only backfilled gram presets are checked
against already-chosen weights; with measures of 100 g and 105 g the
returned presets contain two weights 5 g apart. -/
theorem weightPresets_distinct_counterexample :
    getWeightPresets rCloseWeights =
        [⟨"gram portion A", 100⟩, ⟨"gram portion B", 105⟩, ⟨"50g", 50⟩, ⟨"150g", 150⟩] ∧
      ¬ (getWeightPresets rCloseWeights).Pairwise
          (fun a b => (10 : ℚ) ≤ jsAbs (qSub a.weight b.weight)) := by
  refine ⟨by decide, by decide⟩

/-- C3 (amended): the backfill while-loop always terminates (fuel 5 never
runs out), `getWeightPresets` always returns exactly 4 presets (at most 3
kept measures cannot block all five gram candidates, so a fallback is
always available), and every BACKFILLED entry is at least 10 g away from
all entries chosen before it; kept provider measures may be within 10 g of
each other. -/
theorem weightPresets_terminate_four :
    (∀ cur, (fillLoop 5 cur).isSome = true) ∧
      (∀ r, (getWeightPresets r).length = 4) ∧
      (∀ (r : FoodSearchResult) (ms : List Measure), r.measures = some ms → ms ≠ [] →
        ∃ added, getWeightPresets r = sortedKept ms ++ added ∧
          addedOk (sortedKept ms) added) := by
  refine ⟨fun cur => fillLoop_isSome 5 cur (by omega), fun r => ?_, ?_⟩
  · rcases hm : r.measures with - | ms
    · rw [getWeightPresets, hm]
      rfl
    · cases ms with
      | nil =>
        rw [getWeightPresets, hm]
        rfl
      | cons m t =>
        rw [getWeightPresets_measures_eq r m t hm]
        have h5 := fillLoop_isSome 5 (sortedKept (m :: t)) (by omega)
        obtain ⟨res, hres⟩ := Option.isSome_iff_exists.mp h5
        have hlen := fillLoop_length 5 _ _ hres
        have hkle : (sortedKept (m :: t)).length ≤ 4 := sortedKept_length_le _
        rw [fillTotal, hres, Option.getD_some]
        by_cases h4 : (sortedKept (m :: t)).length < 4
        · rw [List.length_take, hlen.1 h4]
          omega
        · rw [hlen.2 (by omega), List.length_take]
          omega
  · intro r ms h hne
    cases ms with
    | nil => exact absurd rfl hne
    | cons m t =>
      rw [getWeightPresets_measures_eq r m t h]
      have h5 := fillLoop_isSome 5 (sortedKept (m :: t)) (by omega)
      obtain ⟨res, hres⟩ := Option.isSome_iff_exists.mp h5
      obtain ⟨added, hre, hok⟩ := fillLoop_frame 5 _ _ hres
      have hkle : (sortedKept (m :: t)).length ≤ 4 := sortedKept_length_le _
      refine ⟨added.take (4 - (sortedKept (m :: t)).length), ?_, addedOk_take _ _ _ hok⟩
      rw [fillTotal, hres, Option.getD_some, hre, List.take_append_eq_append_take,
        List.take_of_length_le hkle]

/-- Witness for the amended C3: the single-cup result gets backfilled with
50 g, 100 g and 150 g, each far from everything before it. -/
theorem weightPresets_terminate_four_witness :
    (fillLoop 5 []).isSome = true ∧
      (getWeightPresets rCupPortion).length = 4 ∧
      (∃ added, getWeightPresets rCloseWeights =
          sortedKept [⟨"", "gram portion A", some 100⟩, ⟨"", "gram portion B", some 105⟩] ++ added ∧
        addedOk (sortedKept [⟨"", "gram portion A", some 100⟩, ⟨"", "gram portion B", some 105⟩])
          added) :=
  ⟨weightPresets_terminate_four.1 [], weightPresets_terminate_four.2.1 rCupPortion,
    weightPresets_terminate_four.2.2 rCloseWeights _ rfl (by decide)⟩

/-! ## Product Lookup Client (BarcodeScannerScreen, `fetchProductData`) -/

/-- The `nutriments` object of an Open Food Facts product;
`energyKcal100g` models the `'energy-kcal_100g'` field and `energy100g`
the kilojoule `energy_100g` field. -/
structure Nutriments where
  energyKcal100g : Option ℚ
  energy100g : Option ℚ
deriving DecidableEq, Repr

/-- The `product` payload. -/
structure OFFProduct where
  product_name : Option String
  nutriments : Option Nutriments
deriving DecidableEq, Repr

/-- The response body `{ status, product? }`. -/
structure OFFResponse where
  status : ℤ
  product : Option OFFProduct
deriving DecidableEq, Repr

/-- Outcome of the barcode `fetch`. -/
structure OFFFetch where
  ok : Bool
  json : OFFResponse
deriving Repr

/-- The user-visible outcome of `fetchProductData`: navigate to AddFood
with prefilled calories, the found-but-no-calorie-data alert, the
not-found alert, or the network-error alert. -/
inductive ScanOutcome where
  | navigate (name : String) (calories : ℤ)
  | foundNoCalories (name : String)
  | notFound
  | fetchFailed
deriving DecidableEq, Repr

/-- The calorie extraction
`nutriments['energy-kcal_100g'] || (nutriments.energy_100g ? nutriments.energy_100g / 4.184 : 0) || 0`
(`4.184` is `mkRat 523 125`; a `0` kilocalorie value is falsy and falls
through to the kilojoule branch). -/
def extractEnergy (nutriments : Option Nutriments) : ℚ :=
  match nutriments with
  | none => 0
  | some n =>
      let fromKj : ℚ :=
        match n.energy100g with
        | none => 0
        | some kj => if kj = 0 then 0 else qDiv kj (mkRat 523 125)
      let v := jsOrQ n.energyKcal100g fromKj
      if v = 0 then 0 else v

/-- `fetchProductData` (BarcodeScannerScreen): a failed fetch throws and is
caught as the error alert; `status === 1 && product` means found; positive
extracted calories navigate with `Math.round(calories)`, otherwise the
found-without-calories alert; anything else is not-found. -/
def fetchProductData (resp : OFFFetch) : ScanOutcome :=
  if resp.ok = false then .fetchFailed
  else
    let data := resp.json
    if data.status = 1 then
      match data.product with
      | some product =>
          let productName := jsOrS product.product_name "Unknown Product"
          let calories := extractEnergy product.nutriments
          if 0 < calories then .navigate productName (jsRound calories)
          else .foundNoCalories productName
      | none => .notFound
    else .notFound

/-- Written from claim C8's words: prefer the kilocalorie field whenever it
is PRESENT (fall back only when it is absent), else kilojoules over 4.184. -/
def specEnergyExtract (nutriments : Option Nutriments) : ℚ :=
  match nutriments with
  | none => 0
  | some n =>
      match n.energyKcal100g with
      | some v => v
      | none =>
          match n.energy100g with
          | some kj => qDiv kj (mkRat 523 125)
          | none => 0

/-- A product whose kilocalorie field is present with value 0 and whose
kilojoule field is 418.4. -/
def respKcalZero : OFFFetch :=
  ⟨true, ⟨1, some ⟨some "Profood", some ⟨some 0, some (mkRat 2092 5)⟩⟩⟩⟩

/-- Counterexample to C8 as stated: the kilocalorie field is present (with
value 0), so by the claim no fallback may happen and the outcome must be
"no calorie data"; the code's `||` treats the 0 as falsy, falls back to
418.4 kJ / 4.184 = 100 kcal and navigates with 100. -/
theorem barcode_energy_counterexample :
    fetchProductData respKcalZero = .navigate "Profood" 100 ∧
      specEnergyExtract (some ⟨some 0, some (mkRat 2092 5)⟩) = 0 ∧
      ScanOutcome.navigate "Profood" 100 ≠ ScanOutcome.foundNoCalories "Profood" := by
  refine ⟨by decide, by decide, by decide⟩

/-- C8 (amended): the extracted per-100g energy is the kilocalorie field
whenever that field is present AND nonzero (truthy); when it is absent or
zero, the kilojoule field divided by 4.184 is used (when itself present and
nonzero, else 0); a non-positive extraction gives the "no calorie data"
outcome (the product still counts as found, distinct from not-found), and
a positive one navigates with the value rounded. -/
theorem barcode_energy_amended :
    (∀ (n : Nutriments) (v : ℚ), n.energyKcal100g = some v → v ≠ 0 →
        extractEnergy (some n) = v) ∧
      (∀ (n : Nutriments) (kj : ℚ),
        (n.energyKcal100g = none ∨ n.energyKcal100g = some 0) →
        n.energy100g = some kj → kj ≠ 0 →
        extractEnergy (some n) = kj / (4184 / 1000)) ∧
      (∀ n : Nutriments, (n.energyKcal100g = none ∨ n.energyKcal100g = some 0) →
        (n.energy100g = none ∨ n.energy100g = some 0) → extractEnergy (some n) = 0) ∧
      extractEnergy none = 0 ∧
      (∀ (resp : OFFFetch) (p : OFFProduct), resp.ok = true → resp.json.status = 1 →
        resp.json.product = some p → ¬ 0 < extractEnergy p.nutriments →
        fetchProductData resp = .foundNoCalories (jsOrS p.product_name "Unknown Product")) ∧
      (∀ (resp : OFFFetch) (p : OFFProduct), resp.ok = true → resp.json.status = 1 →
        resp.json.product = some p → 0 < extractEnergy p.nutriments →
        fetchProductData resp =
          .navigate (jsOrS p.product_name "Unknown Product")
            (jsRound (extractEnergy p.nutriments))) := by
  have hconv : mkRat 523 125 = (4184 / 1000 : ℚ) := by
    rw [Rat.mkRat_eq_div]
    norm_num
  refine ⟨?_, ?_, ?_, rfl, ?_, ?_⟩
  · intro n v h hv
    simp [extractEnergy, jsOrQ, h, hv]
  · intro n kj hk hkj hkjne
    have hdiv : qDiv kj (mkRat 523 125) ≠ 0 := by
      rw [qDiv_eq, hconv]
      exact div_ne_zero hkjne (by norm_num)
    rcases hk with h | h <;>
      simp [extractEnergy, jsOrQ, h, hkj, hkjne, hdiv, qDiv_eq, hconv]
  · intro n hk hj
    rcases hk with h | h <;> rcases hj with h2 | h2 <;>
      simp [extractEnergy, jsOrQ, h, h2]
  · intro resp p hok hst hp hneg
    rw [fetchProductData, if_neg (by simp [hok]), if_pos hst, hp]
    simp only [if_neg hneg]
  · intro resp p hok hst hp hpos
    rw [fetchProductData, if_neg (by simp [hok]), if_pos hst, hp]
    simp only [if_pos hpos]

/-- Witness for the amended C8 across its branches. -/
theorem barcode_energy_amended_witness :
    extractEnergy (some ⟨some 50, none⟩) = 50 ∧
      extractEnergy (some ⟨none, some (mkRat 2092 5)⟩) = mkRat 2092 5 / (4184 / 1000) ∧
      extractEnergy (some ⟨none, none⟩) = 0 ∧
      fetchProductData ⟨true, ⟨1, some ⟨some "Bare", none⟩⟩⟩ =
        .foundNoCalories "Bare" ∧
      fetchProductData respKcalZero =
        .navigate "Profood"
          (jsRound (extractEnergy (some ⟨some 0, some (mkRat 2092 5)⟩))) :=
  ⟨barcode_energy_amended.1 ⟨some 50, none⟩ 50 rfl (by norm_num),
    barcode_energy_amended.2.1 ⟨none, some (mkRat 2092 5)⟩ (mkRat 2092 5) (.inl rfl) rfl
      (by rw [Rat.mkRat_eq_div]; norm_num),
    barcode_energy_amended.2.2.1 ⟨none, none⟩ (.inl rfl) (.inl rfl),
    barcode_energy_amended.2.2.2.2.1 ⟨true, ⟨1, some ⟨some "Bare", none⟩⟩⟩
      ⟨some "Bare", none⟩ rfl rfl rfl (by decide),
    barcode_energy_amended.2.2.2.2.2 respKcalZero ⟨some "Profood", some ⟨some 0, some (mkRat 2092 5)⟩⟩
      rfl rfl rfl (by decide)⟩

end CalorieCounter
